import Mathlib

/-!
Shallow embedding of `src/generate.py` (class `CrosswordCreator`), the
constraint-propagation and search core of the crossword repository.

Conventions of the embedding:
* Python strings are `List Char`; Python lists are Lean `List`s.
* Python exceptions are modelled with `Except PyErr`; a function that can
  raise returns `Except PyErr α`.
* `self.domains` (a dict from `Variable` to a list of words) is a total
  function `Var → List Word`; mutation is explicit state passing.
* Python's `for x in lst` iterates with an index cursor over the live list
  object; `lst.remove(v)` deletes the first occurrence of `v`.  The loops in
  `enforce_node_consistency` and `revise` mutate the list being iterated, so
  the cursor skips the element that slides into the removed slot.  The loop
  embeddings below carry the cursor state explicitly as a pair
  `(done, todo)` with current list `done ++ todo` and cursor `done.length`;
  see the comments on `nodeLoop` and `reviseLoop`.
* The `Crossword` class (file `crossword.py`) is not part of `src/`; its
  data is modelled from the spec (see `Puzzle`, `neighbors`).
-/

/-- Python exception kinds that the embedded code can raise. -/
inductive PyErr where
  | typeError
  | keyError
  | indexError
  | valueError
  | notImplementedError
deriving DecidableEq, Repr

/-- Orientation of a slot.  Modelled from the spec (§3): "orientation (one of
two: horizontal or vertical)"; `crossword.py` is not in `src/`. -/
inductive Direction where
  | across
  | down
deriving DecidableEq, Repr

/-- A crossword variable.  Modelled from the spec (§3): "start row/column,
orientation, length ... Two variables are equal iff all attributes match." -/
structure Var where
  i : Nat
  j : Nat
  dir : Direction
  length : Nat
deriving DecidableEq, Repr

/-- A word is a Python string, embedded as its character list. -/
abbrev Word := List Char

/-- The puzzle data consumed by `CrosswordCreator`.  Modelled from the spec
(§3, §4.1): an enumeration of variables and a total overlap lookup that
returns "no overlap" (here `none`) for non-intersecting pairs and a pair of
offsets `(i, j)` for intersecting ones. -/
structure Puzzle where
  vars : List Var
  overlaps : Var → Var → Option (Nat × Nat)

/-- `self.crossword.neighbors(v)`: all variables overlapping `v`.  Modelled
from the spec (§4.1): "a neighbor query (all variables overlapping a given
variable)". -/
def neighbors (p : Puzzle) (v : Var) : List Var :=
  p.vars.filter (fun u => u ≠ v ∧ (p.overlaps v u).isSome)

/-- The domain store `self.domains`: one candidate-word list per variable. -/
abbrev St := Var → List Word

/-- Writing one entry of the domain store. -/
def updateSt (st : St) (x : Var) (ws : List Word) : St :=
  fun v => if v = x then ws else st v

/-- `CrosswordCreator.__init__`: `self.domains = {var: words.copy() for var
in self.crossword.variables}` — every variable starts with the full word
list. -/
def initDomains (_ : Puzzle) (ws : List Word) : St :=
  fun _ => ws

/-- Python string indexing `w[k]`: the character, or `IndexError` when `k`
is out of range. -/
def getChar (w : Word) (k : Nat) : Except PyErr Char :=
  match w.get? k with
  | some c => .ok c
  | none => .error .indexError

/-- Assignments are Python dicts `Variable -> word-or-None`, embedded as
association lists in insertion order with distinct keys. -/
abbrev Assignment := List (Var × Option Word)

/-- Python dict lookup `assignment[v]`: `none` means the key is absent
(a `KeyError` at use sites). -/
def lookupA (asg : Assignment) (v : Var) : Option (Option Word) :=
  match asg with
  | [] => none
  | (u, w) :: rest => if u = v then some w else lookupA rest v

/-- The inner loop of `revise` (generate.py lines 136-142): scan
`self.domains[y]` for a word supporting `word_x`; `conflict` stays `True`
when no `word_y` has an equal character at the overlap and differs from
`word_x`.  Character accesses `word_x[i]` / `word_y[j]` can raise
`IndexError`. -/
def conflictWith (wx : Word) (i j : Nat) : List Word → Except PyErr Bool
  | [] => .ok true
  | wy :: rest =>
    match getChar wx i with
    | .error e => .error e
    | .ok cx =>
      match getChar wy j with
      | .error e => .error e
      | .ok cy =>
        if cx = cy ∧ wx ≠ wy then .ok false
        else conflictWith wx i j rest

/-- The outer loop of `revise` (generate.py lines 133-146):
`for word_x in self.domains[x]: ... if conflict: self.domains[x].remove(word_x)`.

Python iterates with an index cursor over the live list and `remove`
deletes the first occurrence.  State: current list = `done ++ todo`,
cursor = `done.length`, so the examined word is `todo`'s head `w`.
* no conflict: cursor advances, list unchanged: `(done ++ [w], todo')`.
* conflict, `w` not in `done`: the first occurrence of `w` is exactly the
  cursor cell; after removal the next cell holds the element that was one
  past `w`, but the cursor still advances, so that element is skipped:
  `(done ++ todo'.take 1, todo'.drop 1)`.
* conflict, `w` in `done` (duplicate seen earlier): `remove` deletes the
  earlier occurrence, shifting `w` itself back under the processed prefix;
  the advancing cursor again lands one past the next element:
  `(done.erase w ++ [w] ++ todo'.take 1, todo'.drop 1)`.
Returns the final list and the `revision` flag. -/
def reviseLoop (dy : List Word) (i j : Nat) :
    List Word → List Word → Bool → Except PyErr (List Word × Bool)
  | done, [], rev => .ok (done, rev)
  | done, w :: todo, rev =>
    match conflictWith w i j dy with
    | .error e => .error e
    | .ok true =>
      let doneK := if w ∈ done then (done.erase w) ++ [w] else done
      match todo with
      | [] => .ok (doneK, true)
      | t :: ts => reviseLoop dy i j (doneK ++ [t]) ts true
    | .ok false => reviseLoop dy i j (done ++ [w]) todo rev

/-- `CrosswordCreator.revise(x, y)` (generate.py lines 110-154).  The early
`if x.length != y.length: return False` guard, the overlap branch with the
loops above, and the no-overlap branch that removes `self.domains[y][0]`
from `x`'s domain when `y`'s domain is a singleton contained in it.
The embedding passes `x`'s and `y`'s domains as separate values, which
matches the Python object graph whenever `x ≠ y` (the program only revises
arcs between distinct variables). -/
def revise (p : Puzzle) (st : St) (x y : Var) : Except PyErr (Bool × St) :=
  if x.length ≠ y.length then .ok (false, st)
  else
    match p.overlaps x y with
    | some (i, j) =>
      match reviseLoop (st y) i j [] (st x) false with
      | .error e => .error e
      | .ok (fl, rev) => .ok (rev, updateSt st x fl)
    | none =>
      match st y with
      | [wy] =>
        if wy ∈ st x then .ok (true, updateSt st x ((st x).erase wy))
        else .ok (false, st)
      | _ => .ok (false, st)

/-- The loop of `enforce_node_consistency` for one variable (generate.py
lines 105-108): remove every word whose length differs from the variable's
length.  Same live-list cursor semantics as `reviseLoop` (the element after
a removed one is skipped). -/
def nodeLoop (len : Nat) : List Word → List Word → List Word
  | done, [] => done
  | done, w :: todo =>
    if w.length ≠ len then
      let doneK := if w ∈ done then (done.erase w) ++ [w] else done
      match todo with
      | [] => doneK
      | t :: ts => nodeLoop len (doneK ++ [t]) ts
    else nodeLoop len (done ++ [w]) todo

/-- `CrosswordCreator.enforce_node_consistency` (generate.py lines 96-108).
`for var in self.crossword` enumerates the puzzle's variables (the
`Crossword` class is modelled from the spec §4.1, which exposes
"enumeration of variables"). -/
def enforceNodeConsistency (p : Puzzle) (st : St) : St :=
  p.vars.foldl (fun s v => updateSt s v (nodeLoop v.length [] (s v))) st

/-- The worklist loop of `ac3` (generate.py lines 176-189).  `arcs.pop(0)`
pops the front.  When a revision shrank a non-empty domain, line 185 binds
`neighbors = self.crossword.neighbors(x).remove(y)`; `remove` returns
`None`, so the following `for neighbor in neighbors` raises `TypeError`
before any arc is appended. -/
def ac3Go (p : Puzzle) : St → List (Var × Var) → Except PyErr (Bool × St)
  | st, [] => .ok (true, st)
  | st, (x, y) :: rest =>
    match revise p st x y with
    | .error e => .error e
    | .ok (changed, st2) =>
      if changed then
        if (st2 x).length = 0 then .ok (false, st2)
        else .error .typeError
      else ac3Go p st2 rest

/-- `ac3Go` with an explicit iteration budget: `none` means the budget was
exhausted before the worklist loop finished. -/
def ac3Fuel (p : Puzzle) : Nat → St → List (Var × Var) → Option (Except PyErr (Bool × St))
  | _, st, [] => some (.ok (true, st))
  | 0, _, _ :: _ => none
  | fuel + 1, st, (x, y) :: rest =>
    match revise p st x y with
    | .error e => some (.error e)
    | .ok (changed, st2) =>
      if changed then
        if (st2 x).length = 0 then some (.ok (false, st2))
        else some (.error .typeError)
      else ac3Fuel p fuel st2 rest

/-- The initial worklist built when `ac3` is called with `arcs=None`
(generate.py lines 168-172): every ordered pair `(var, neighbor)`. -/
def defaultArcs (p : Puzzle) : List (Var × Var) :=
  p.vars.flatMap (fun v => (neighbors p v).map (fun n => (v, n)))

/-- `CrosswordCreator.ac3(arcs)` (generate.py lines 158-189). -/
def ac3 (p : Puzzle) (st : St) (oarcs : Option (List (Var × Var))) :
    Except PyErr (Bool × St) :=
  ac3Go p st (oarcs.getD (defaultArcs p))

/-- `CrosswordCreator.backtrack` (generate.py lines 285-294): the body is
`raise NotImplementedError`. -/
def backtrack (_ : Puzzle) (_ : St) (_ : Assignment) :
    Except PyErr (Option Assignment) :=
  .error .notImplementedError

/-- `CrosswordCreator.solve` (generate.py lines 88-94): node consistency,
then `self.ac3()` whose boolean result is discarded, then
`self.backtrack(dict())`. -/
def solve (p : Puzzle) (ws : List Word) : Except PyErr (Option Assignment) :=
  match ac3 p (enforceNodeConsistency p (initDomains p ws)) none with
  | .error e => .error e
  | .ok (_, st2) => backtrack p st2 []

/-- `CrosswordCreator.assignment_complete` (generate.py lines 192-201):
`for var in assignment: if assignment[var] is None: return False` — it
inspects only the keys present in the dict. -/
def assignmentCompleteGo (asg : Assignment) : List (Var × Option Word) → Bool
  | [] => true
  | (v, _) :: rest =>
    match lookupA asg v with
    | some none => false
    | _ => assignmentCompleteGo asg rest

/-- `CrosswordCreator.assignment_complete` entry point. -/
def assignmentComplete (asg : Assignment) : Bool :=
  assignmentCompleteGo asg asg

/-- The neighbor loop of `consistent` (generate.py lines 215-221), for one
assigned variable `v` with word `w`.  Evaluation order of line 220:
`assignment[var][overlap_var]` (the indexing can raise `IndexError`), then
`assignment[neighbor]` (`KeyError` when the neighbor is unassigned), then
its indexing.  A `None` value under a key makes the indexing raise
`TypeError`; unpacking a `None` overlap on line 219 also raises
`TypeError`. -/
def neighborCheck (p : Puzzle) (asg : Assignment) (v : Var) (w : Word) :
    List Var → Except PyErr Bool
  | [] => .ok true
  | nb :: rest =>
    match p.overlaps v nb with
    | none => .error .typeError
    | some (i, j) =>
      match getChar w i with
      | .error e => .error e
      | .ok ci =>
        match lookupA asg nb with
        | none => .error .keyError
        | some none => .error .typeError
        | some (some wn) =>
          match getChar wn j with
          | .error e => .error e
          | .ok cj =>
            if ci ≠ cj then .ok false
            else neighborCheck p asg v w rest

/-- The outer loop of `consistent` (generate.py lines 208-223): iterate the
assignment's keys in insertion order; `len(assignment[var])` raises
`TypeError` on a `None` value; length mismatch returns `False`; then check
every neighbor.  (The `if var is None: continue` guard never fires: keys
are variables.)  The code never checks that a word is used by only one
variable — its own comment on line 214 flags this as missing. -/
def consistentGo (p : Puzzle) (asg : Assignment) :
    List (Var × Option Word) → Except PyErr Bool
  | [] => .ok true
  | (v, _) :: rest =>
    match lookupA asg v with
    | none => .error .keyError
    | some none => .error .typeError
    | some (some w) =>
      if w.length ≠ v.length then .ok false
      else
        match neighborCheck p asg v w (neighbors p v) with
        | .error e => .error e
        | .ok true => consistentGo p asg rest
        | .ok false => .ok false

/-- `CrosswordCreator.consistent` entry point (generate.py lines 203-223). -/
def consistent (p : Puzzle) (asg : Assignment) : Except PyErr Bool :=
  consistentGo p asg asg

/-- The scan of `select_unassigned_variable` (generate.py lines 264-273):
`least_domain_count` starts at `0`, so the strict `<` branch is
unreachable and only variables with an empty domain ever reach the `==`
branch. -/
def selectLoop (st : St) (asg : Assignment) :
    List Var → Option Var → Option Var → Nat → Option Var × Option Var
  | [], least, equal, _ => (least, equal)
  | v :: rest, least, equal, count =>
    if (lookupA asg v).isSome then selectLoop st asg rest least equal count
    else if (st v).length < count then
      selectLoop st asg rest (some v) none (st v).length
    else if (st v).length = count then
      selectLoop st asg rest least (some v) count
    else selectLoop st asg rest least equal count

/-- `CrosswordCreator.select_unassigned_variable` (generate.py lines
251-281).  When `equal_domain_var` is set while `least_domain_var` is still
`None`, line 277 evaluates `self.crossword.neighbors(None)`, whose overlap
lookups with `None` raise in the modelled `Crossword`; otherwise the higher
degree variable of the two is returned, or `least_domain_var` (possibly
`None`). -/
def selectUnassignedVariable (p : Puzzle) (st : St) (asg : Assignment) :
    Except PyErr (Option Var) :=
  match selectLoop st asg p.vars none none 0 with
  | (least, equal) =>
    match equal with
    | none => .ok least
    | some e =>
      match least with
      | none => .error .keyError
      | some l =>
        if (neighbors p e).length > (neighbors p l).length then .ok (some e)
        else .ok (some l)

/-- Refinement-side predicate, following the claims' words: a word `wy` of
`y`'s domain supports `w` at overlap `(i, j)` when the characters at the
overlapping offsets exist and are equal. -/
def charsMatchB (w : Word) (i : Nat) (wy : Word) (j : Nat) : Bool :=
  match w.get? i, wy.get? j with
  | some c, some d => c == d
  | _, _ => false

/-- Refinement-side support, following the spec's words for `Revise`:
"for every remaining word in x's domain, at least one word in y's domain
satisfies their overlap constraint (same character at the overlapping
offsets, OR no overlap defined — when no overlap is defined, any y-word
satisfies)". -/
def specSupportedO (ov : Option (Nat × Nat)) (w : Word) (dy : List Word) : Bool :=
  match ov with
  | some (i, j) => dy.any (fun wy => charsMatchB w i wy j)
  | none => true

/-- Support as the code's inner loop computes it: an equal overlap character
from a word of `y`'s domain that is not `w` itself. -/
def codeSupportedB (i j : Nat) (w : Word) (dy : List Word) : Bool :=
  dy.any (fun wy => charsMatchB w i wy j && wy != w)

/-- `codeSupportedB` lifted over an optional overlap (no overlap: any
y-word satisfies). -/
def codeSupportedO (ov : Option (Nat × Nat)) (w : Word) (dy : List Word) : Bool :=
  match ov with
  | some (i, j) => codeSupportedB i j w dy
  | none => true

/-- Refinement-side completeness, following the claim's words for
`assignment_complete`: every puzzle variable has an entry with a non-absent
value. -/
def specComplete (p : Puzzle) (asg : Assignment) : Bool :=
  p.vars.all (fun v =>
    match lookupA asg v with
    | some (some _) => true
    | _ => false)

/-! ## Concrete instances used to evaluate the code

Small puzzles with geometrically coherent overlap relations (symmetric with
mirrored offsets, as the spec §3 requires of the modelled `Crossword`). -/

/-- A horizontal slot of length 2 starting at cell (0,0). -/
def xAB : Var := ⟨0, 0, Direction.across, 2⟩

/-- A vertical slot of length 2 starting at cell (0,0); it crosses `xAB` at
offset 0 of both. -/
def yAB : Var := ⟨0, 0, Direction.down, 2⟩

/-- Two crossing length-2 slots sharing cell (0,0). -/
def pXY : Puzzle :=
  ⟨[xAB, yAB], fun u v =>
    if (u = xAB ∧ v = yAB) ∨ (u = yAB ∧ v = xAB) then some (0, 0) else none⟩

/-- Domains for `pXY` exercising the re-queue line of `ac3`: revising
`(xAB, yAB)` removes `"ab"` and leaves `["cb"]`, a non-empty domain. -/
def st4 : St := fun v => if v = xAB then [['a', 'b'], ['c', 'b']] else [['c', 'b']]

/-- A horizontal slot of length 2 and a vertical slot of length 3 crossing
it at cell (0,0): an overlapping pair with different lengths. -/
def y3 : Var := ⟨0, 0, Direction.down, 3⟩

/-- Puzzle with the different-length crossing pair `xAB`/`y3`. -/
def p3 : Puzzle :=
  ⟨[xAB, y3], fun u v =>
    if (u = xAB ∧ v = y3) ∨ (u = y3 ∧ v = xAB) then some (0, 0) else none⟩

/-- Domains for `p3`: `"ab"` has no partner in `["zzz"]` at the overlap. -/
def st3 : St := fun v => if v = xAB then [['a', 'b']] else [['z', 'z', 'z']]

/-- Domains for `pXY` exercising the in-place-removal skip of `revise`:
removing `"ba"` slides `"aa"` under the cursor, so `"aa"` is never
examined although its only overlap-compatible partner in `y`'s domain is
`"aa"` itself. -/
def st10 : St :=
  fun v => if v = xAB then [['b', 'a'], ['a', 'a']] else [['a', 'a'], ['c', 'd']]

/-- An assignment for `pXY` giving `xAB` the word `"ab"` and leaving its
neighbor `yAB` unassigned. -/
def asgA : Assignment := [(xAB, some ['a', 'b'])]

/-- An assignment for `pXY` giving the identical word `"ab"` to both
variables; the overlap characters agree. -/
def asgB : Assignment := [(xAB, some ['a', 'b']), (yAB, some ['a', 'b'])]

/-- A puzzle with a single length-2 variable and no overlaps. -/
def pOne : Puzzle := ⟨[xAB], fun _ _ => none⟩

/-- Domains holding two length-3 words for the length-2 variable of
`pOne`. -/
def stNode : St := fun _ => [['a', 'b', 'c'], ['d', 'e', 'f']]

/-- Domains holding one length-2 word for the variable of `pOne`. -/
def stSel : St := fun _ => [['a', 'b']]

/-- Domains for `pXY` on which `revise` makes no removal: `"ab"` is
supported by the distinct word `"ac"`. -/
def stOk : St := fun v => if v = xAB then [['a', 'b']] else [['a', 'c']]

/-! ## Helper lemmas about the embedded loops -/

/-- Inversion for Python indexing: a successful `w[k]` is the `k`-th
character. -/
theorem getChar_ok {w : Word} {k : Nat} {c : Char} (h : getChar w k = .ok c) :
    w.get? k = some c := by
  unfold getChar at h
  cases hw : w.get? k with
  | none => rw [hw] at h; cases h
  | some d => rw [hw] at h; cases h; rfl

/-- When the inner loop of `revise` clears the conflict flag, some word of
`y`'s domain matches `wx` at the overlap and differs from it. -/
theorem conflictWith_false_support {wx : Word} {i j : Nat} {dy : List Word}
    (h : conflictWith wx i j dy = .ok false) :
    codeSupportedB i j wx dy = true := by
  induction dy with
  | nil => rw [conflictWith] at h; cases h
  | cons wy rest ih =>
    rw [conflictWith] at h
    cases hx : getChar wx i with
    | error e => rw [hx] at h; cases h
    | ok cx =>
      rw [hx] at h
      cases hy : getChar wy j with
      | error e => rw [hy] at h; cases h
      | ok cy =>
        rw [hy] at h
        simp only [] at h
        by_cases hc : cx = cy ∧ wx ≠ wy
        · simp only [codeSupportedB, List.any_cons, Bool.or_eq_true,
            Bool.and_eq_true, charsMatchB, getChar_ok hx, getChar_ok hy]
          exact Or.inl ⟨by simp [hc.1], bne_iff_ne.mpr (Ne.symm hc.2)⟩
        · rw [if_neg hc] at h
          have hr := ih h
          simp only [codeSupportedB, List.any_cons, Bool.or_eq_true]
          exact Or.inr (by simpa [codeSupportedB] using hr)

/-- When the inner loop of `revise` reports a conflict, no word of `y`'s
domain both matches `wx` at the overlap and differs from it. -/
theorem conflictWith_true_nosupport {wx : Word} {i j : Nat} {dy : List Word}
    (h : conflictWith wx i j dy = .ok true) :
    codeSupportedB i j wx dy = false := by
  induction dy with
  | nil => rfl
  | cons wy rest ih =>
    rw [conflictWith] at h
    cases hx : getChar wx i with
    | error e => rw [hx] at h; cases h
    | ok cx =>
      rw [hx] at h
      cases hy : getChar wy j with
      | error e => rw [hy] at h; cases h
      | ok cy =>
        rw [hy] at h
        simp only [] at h
        by_cases hc : cx = cy ∧ wx ≠ wy
        · rw [if_pos hc] at h; cases h
        · rw [if_neg hc] at h
          have hr := ih h
          simp only [codeSupportedB, List.any_cons, Bool.or_eq_false_iff]
          refine ⟨?_, by simpa [codeSupportedB] using hr⟩
          rw [Bool.and_eq_false_iff]
          rcases not_and_or.mp hc with hne | heq
          · left
            simp only [charsMatchB, getChar_ok hx, getChar_ok hy]
            simpa using hne
          · right
            have : wx = wy := not_not.mp heq
            simp [this]

/-- Once the revision flag is set, the outer loop of `revise` reports a
revision. -/
theorem reviseLoop_true_aux (dy : List Word) (i j : Nat) :
    ∀ n todo done fl r, todo.length ≤ n →
      reviseLoop dy i j done todo true = .ok (fl, r) → r = true := by
  intro n
  induction n with
  | zero =>
    intro todo done fl r hlen h
    have htodo : todo = [] := List.length_eq_zero.mp (Nat.le_zero.mp hlen)
    subst htodo
    rw [reviseLoop] at h
    cases h; rfl
  | succ n ih =>
    intro todo done fl r hlen h
    cases todo with
    | nil => rw [reviseLoop] at h; cases h; rfl
    | cons w ts =>
      rw [reviseLoop] at h
      cases hc : conflictWith w i j dy with
      | error e => rw [hc] at h; cases h
      | ok b =>
        rw [hc] at h
        cases b with
        | true =>
          cases ts with
          | nil => cases h; rfl
          | cons t ts2 =>
            exact ih ts2 _ fl r (by simp at hlen ⊢; omega) h
        | false =>
          exact ih ts (done ++ [w]) fl r (by simp at hlen ⊢; omega) h

/-- Wrapper for `reviseLoop_true_aux` without the length bound. -/
theorem reviseLoop_true {dy : List Word} {i j : Nat} {done todo fl : List Word}
    {r : Bool} (h : reviseLoop dy i j done todo true = .ok (fl, r)) : r = true :=
  reviseLoop_true_aux dy i j todo.length todo done fl r le_rfl h

/-- A run of the outer loop of `revise` that never sets the revision flag
leaves the list unchanged and found, for every examined word, a conflict
check that cleared. -/
theorem reviseLoop_false_aux (dy : List Word) (i j : Nat) :
    ∀ n todo done fl, todo.length ≤ n →
      reviseLoop dy i j done todo false = .ok (fl, false) →
      fl = done ++ todo ∧ ∀ w ∈ todo, conflictWith w i j dy = .ok false := by
  intro n
  induction n with
  | zero =>
    intro todo done fl hlen h
    have htodo : todo = [] := List.length_eq_zero.mp (Nat.le_zero.mp hlen)
    subst htodo
    rw [reviseLoop] at h
    cases h
    exact ⟨by simp, by simp⟩
  | succ n ih =>
    intro todo done fl hlen h
    cases todo with
    | nil =>
      rw [reviseLoop] at h
      cases h
      exact ⟨by simp, by simp⟩
    | cons w ts =>
      rw [reviseLoop] at h
      cases hc : conflictWith w i j dy with
      | error e => rw [hc] at h; cases h
      | ok b =>
        rw [hc] at h
        cases b with
        | true =>
          cases ts with
          | nil => cases h
          | cons t ts2 =>
            have := reviseLoop_true h
            cases this
        | false =>
          have hr := ih ts (done ++ [w]) fl (by simp at hlen ⊢; omega) h
          refine ⟨by simpa using hr.1, ?_⟩
          intro u hu
          rcases List.mem_cons.mp hu with huw | hut
          · subst huw; exact hc
          · exact hr.2 u hut

/-- Every word in the list produced by the outer loop of `revise` was
already in the processed prefix or the pending suffix. -/
theorem reviseLoop_subset_aux (dy : List Word) (i j : Nat) :
    ∀ n todo done rev fl r, todo.length ≤ n →
      reviseLoop dy i j done todo rev = .ok (fl, r) →
      ∀ u ∈ fl, u ∈ done ++ todo := by
  intro n
  induction n with
  | zero =>
    intro todo done rev fl r hlen h
    have htodo : todo = [] := List.length_eq_zero.mp (Nat.le_zero.mp hlen)
    subst htodo
    rw [reviseLoop] at h
    cases h
    simp
  | succ n ih =>
    intro todo done rev fl r hlen h
    cases todo with
    | nil =>
      rw [reviseLoop] at h
      cases h
      simp
    | cons w ts =>
      rw [reviseLoop] at h
      cases hc : conflictWith w i j dy with
      | error e => rw [hc] at h; cases h
      | ok b =>
        rw [hc] at h
        cases b with
        | true =>
          simp only [] at h
          cases ts with
          | nil =>
            cases h
            intro u hu
            by_cases hw : w ∈ done
            · rw [if_pos hw] at hu
              rcases List.mem_append.mp hu with h1 | h2
              · exact List.mem_append.mpr (Or.inl (List.mem_of_mem_erase h1))
              · simp at h2; simp [h2]
            · rw [if_neg hw] at hu
              exact List.mem_append.mpr (Or.inl hu)
          | cons t ts2 =>
            intro u hu
            have hrec := ih ts2 _ true fl r (by simp at hlen ⊢; omega) h u hu
            rcases List.mem_append.mp hrec with h1 | h2
            · rcases List.mem_append.mp h1 with h3 | h4
              · by_cases hw : w ∈ done
                · rw [if_pos hw] at h3
                  rcases List.mem_append.mp h3 with h5 | h6
                  · exact List.mem_append.mpr (Or.inl (List.mem_of_mem_erase h5))
                  · simp at h6; simp [h6]
                · rw [if_neg hw] at h3
                  exact List.mem_append.mpr (Or.inl h3)
              · simp at h4; simp [h4]
            · simp [h2]
        | false =>
          intro u hu
          have hrec := ih ts (done ++ [w]) rev fl r (by simp at hlen ⊢; omega) h u hu
          rcases List.mem_append.mp hrec with h1 | h2
          · rcases List.mem_append.mp h1 with h3 | h4
            · exact List.mem_append.mpr (Or.inl h3)
            · simp at h4; simp [h4]
          · simp [h2]

/-- A word in the processed prefix that never reappears in the pending
suffix survives the outer loop of `revise`. -/
theorem reviseLoop_keep_aux (dy : List Word) (i j : Nat) (w0 : Word) :
    ∀ n todo done rev fl r, todo.length ≤ n →
      w0 ∈ done → (∀ u ∈ todo, u ≠ w0) →
      reviseLoop dy i j done todo rev = .ok (fl, r) → w0 ∈ fl := by
  intro n
  induction n with
  | zero =>
    intro todo done rev fl r hlen hdone _ h
    have htodo : todo = [] := List.length_eq_zero.mp (Nat.le_zero.mp hlen)
    subst htodo
    rw [reviseLoop] at h
    cases h
    exact hdone
  | succ n ih =>
    intro todo done rev fl r hlen hdone hne h
    cases todo with
    | nil =>
      rw [reviseLoop] at h
      cases h
      exact hdone
    | cons w ts =>
      have hww0 : w ≠ w0 := hne w (by simp)
      rw [reviseLoop] at h
      cases hc : conflictWith w i j dy with
      | error e => rw [hc] at h; cases h
      | ok b =>
        rw [hc] at h
        cases b with
        | true =>
          simp only [] at h
          have hdoneK : w0 ∈ (if w ∈ done then (done.erase w) ++ [w] else done) := by
            by_cases hw : w ∈ done
            · rw [if_pos hw]
              exact List.mem_append.mpr
                (Or.inl ((List.mem_erase_of_ne (Ne.symm hww0)).mpr hdone))
            · rw [if_neg hw]; exact hdone
          cases ts with
          | nil =>
            cases h
            exact hdoneK
          | cons t ts2 =>
            refine ih ts2 _ true fl r (by simp at hlen ⊢; omega)
              (List.mem_append.mpr (Or.inl hdoneK)) ?_ h
            intro u hu
            exact hne u (by simp [hu])
        | false =>
          refine ih ts (done ++ [w]) rev fl r (by simp at hlen ⊢; omega)
            (List.mem_append.mpr (Or.inl hdone)) ?_ h
          intro u hu
          exact hne u (by simp [hu])

/-! ## Claim theorems -/

/-- Claim C1 (code evaluation): `solve` never returns a value to the
caller — `backtrack`'s body is `raise NotImplementedError`, so every call
of `solve` that survives propagation raises it, and earlier propagation
errors also raise.  This contradicts the claim that `solve` always returns
an assignment or the no-solution value. -/
theorem solve_always_raises (p : Puzzle) (ws : List Word) :
    ∃ e, solve p ws = .error e := by
  unfold solve
  cases h : ac3 p (enforceNodeConsistency p (initDomains p ws)) none with
  | error e => exact ⟨e, rfl⟩
  | ok pr =>
    obtain ⟨b, st⟩ := pr
    exact ⟨.notImplementedError, rfl⟩

/-- Claim C2 (code evaluation): on the crossing pair `pXY` with word list
`["aa"]`, `ac3` empties `xAB`'s domain and reports failure, yet `solve`
ignores that result and still invokes `backtrack`, so the caller gets
`NotImplementedError` instead of the no-solution value. -/
theorem solve_ignores_ac3_failure :
    (ac3 pXY (enforceNodeConsistency pXY (initDomains pXY [['a', 'a']])) none).map
        (fun r => (r.1, r.2 xAB)) = .ok (false, []) ∧
    solve pXY [['a', 'a']] = .error .notImplementedError := ⟨rfl, rfl⟩

/-- Claim C3 (counterexample): `xAB` (length 2) and `y3` (length 3) overlap
at `(0, 0)`, but `revise` returns without touching `x`'s domain because of
the `x.length != y.length` early return; the surviving word `"ab"` has no
word in `y`'s domain with an equal character at the overlap. -/
theorem revise_skips_unequal_lengths :
    p3.overlaps xAB y3 = some (0, 0) ∧
    (revise p3 st3 xAB y3).map (fun r => (r.1, r.2 xAB, r.2 y3)) =
      .ok (false, [['a', 'b']], [['z', 'z', 'z']]) ∧
    specSupportedO (p3.overlaps xAB y3) ['a', 'b'] [['z', 'z', 'z']] = false :=
  ⟨by decide, rfl, by decide⟩

/-- Claim C3 (amended): when `x` and `y` are distinct variables of equal
length and `revise(x, y)` reports no revision, every word of `x`'s domain
has a distinct word of `y`'s domain with an equal character at the overlap
offsets when an overlap is defined, and trivially satisfies the constraint
otherwise. -/
theorem revise_no_removal_supported (p : Puzzle) (st : St) (x y : Var) (st2 : St)
    (hlen : x.length = y.length) (hxy : x ≠ y)
    (h : revise p st x y = .ok (false, st2)) :
    ∀ w ∈ st2 x, codeSupportedO (p.overlaps x y) w (st2 y) = true := by
  intro w hw
  unfold revise at h
  rw [if_neg (by simp [hlen])] at h
  cases hov : p.overlaps x y with
  | none => simp [codeSupportedO]
  | some ij =>
    obtain ⟨i, j⟩ := ij
    rw [hov] at h
    simp only [] at h
    cases hrl : reviseLoop (st y) i j [] (st x) false with
    | error e => rw [hrl] at h; cases h
    | ok pr =>
      obtain ⟨fl, rev⟩ := pr
      rw [hrl] at h
      simp only [] at h
      rw [Except.ok.injEq, Prod.mk.injEq] at h
      obtain ⟨hrev, hst⟩ := h
      subst hrev
      subst hst
      have hfl := reviseLoop_false_aux (st y) i j (st x).length (st x) [] fl
        le_rfl hrl
      have hx2 : updateSt st x fl x = fl := by simp [updateSt]
      have hy2 : updateSt st x fl y = st y := by
        simp [updateSt, Ne.symm hxy]
      rw [hx2] at hw
      rw [codeSupportedO, hy2]
      have hwst : w ∈ st x := by rw [hfl.1] at hw; simpa using hw
      exact conflictWith_false_support (hfl.2 w hwst)

/-- Claim C3 (witness): on `pXY` with domains `stOk`, `revise` makes no
removal and every surviving word of `xAB`'s domain is supported. -/
theorem revise_no_removal_supported_witness :
    xAB.length = yAB.length ∧ xAB ≠ yAB ∧
    revise pXY stOk xAB yAB = .ok (false, updateSt stOk xAB [['a', 'b']]) ∧
    ∀ w ∈ (updateSt stOk xAB [['a', 'b']]) xAB,
      codeSupportedO (pXY.overlaps xAB yAB) w
        ((updateSt stOk xAB [['a', 'b']]) yAB) = true :=
  ⟨rfl, by decide, rfl,
    revise_no_removal_supported pXY stOk xAB yAB
      (updateSt stOk xAB [['a', 'b']]) rfl (by decide) rfl⟩

/-- Claim C4 (code evaluation): popping the arc `(xAB, yAB)` on the domains
`st4` makes `revise` remove `"ab"` and leave the non-empty domain
`["cb"]`; the re-queue line `neighbors(x).remove(y)` then evaluates to
`None` and iterating it raises `TypeError` — no arc is ever appended and
processing does not continue. -/
theorem ac3_requeue_raises :
    ac3Go pXY st4 [(xAB, yAB)] = .error .typeError ∧
    (revise pXY st4 xAB yAB).map (fun r => (r.1, r.2 xAB)) =
      .ok (true, [['c', 'b']]) := ⟨rfl, rfl⟩

/-- Claim C5 (code evaluation): `consistent` raises `KeyError` when an
assigned variable has an unassigned neighbor (`asgA`), and accepts an
assignment giving the identical word to two distinct variables (`asgB`) —
it never checks uniqueness of use. -/
theorem consistent_keyerror_and_reuse :
    consistent pXY asgA = .error .keyError ∧
    consistent pXY asgB = .ok true ∧ xAB ≠ yAB :=
  ⟨rfl, rfl, by decide⟩

/-- Claim C6 (code evaluation): the empty assignment assigns nothing, yet
`assignment_complete` returns `True` because it only scans the keys
present in the dict; the spec-side check over the puzzle's variables
returns `False` on the one-variable puzzle `pOne`. -/
theorem assignment_complete_ignores_variables :
    assignmentComplete [] = true ∧ specComplete pOne [] = false ∧
    pOne.vars = [xAB] := ⟨rfl, by decide, rfl⟩

/-- Claim C7 (code evaluation): with the single unassigned variable `xAB`
holding the non-empty domain `["ab"]`, `select_unassigned_variable`
returns `None` rather than `xAB`: `least_domain_count` starts at `0`, so
no variable with a non-empty domain is ever selected. -/
theorem select_unassigned_returns_none :
    selectUnassignedVariable pOne stSel [] = .ok none ∧
    pOne.vars = [xAB] ∧ stSel xAB = [['a', 'b']] := ⟨rfl, rfl, rfl⟩

/-- Claim C8 (code evaluation): for the length-2 variable `xAB` with domain
`["abc", "def"]`, removing `"abc"` in place slides `"def"` under the
cursor; it is skipped and survives node consistency although its length is
3. -/
theorem node_consistency_skips_word :
    (enforceNodeConsistency pOne stNode) xAB = [['d', 'e', 'f']] ∧
    ((enforceNodeConsistency pOne stNode) xAB).all
      (fun w => w.length == xAB.length) = false := ⟨rfl, by decide⟩

/-- Claim C9: with `fuel` at least the length of the initial worklist, the
budgeted loop `ac3Fuel` completes and computes exactly `ac3`; the loop of
`ac3` therefore performs at most as many iterations as the initial
worklist has arcs, on every input. -/
theorem ac3_terminates (p : Puzzle) (st : St) (oarcs : Option (List (Var × Var)))
    (fuel : Nat) (h : (oarcs.getD (defaultArcs p)).length ≤ fuel) :
    ac3Fuel p fuel st (oarcs.getD (defaultArcs p)) = some (ac3 p st oarcs) := by
  unfold ac3
  generalize oarcs.getD (defaultArcs p) = arcs at h ⊢
  induction arcs generalizing fuel st with
  | nil => cases fuel <;> rfl
  | cons a rest ih =>
    obtain ⟨x, y⟩ := a
    cases fuel with
    | zero => simp at h
    | succ f =>
      rw [ac3Fuel, ac3Go]
      cases hr : revise p st x y with
      | error e => rfl
      | ok pr =>
        obtain ⟨changed, st2⟩ := pr
        simp only []
        cases changed with
        | true =>
          by_cases h0 : (st2 x).length = 0
          · simp [h0]
          · simp [h0]
        | false =>
          simp only [Bool.false_eq_true, if_false]
          exact ih st2 f (by simp at h ⊢; omega)

/-- Claim C9 (witness): one arc, fuel 1. -/
theorem ac3_terminates_witness :
    ((some [(xAB, yAB)] : Option (List (Var × Var))).getD (defaultArcs pXY)).length ≤ 1 ∧
    ac3Fuel pXY 1 st4 ((some [(xAB, yAB)]).getD (defaultArcs pXY)) =
      some (ac3 pXY st4 (some [(xAB, yAB)])) :=
  ⟨by decide, ac3_terminates pXY st4 (some [(xAB, yAB)]) 1 (by decide)⟩

/-- Claim C10 (counterexample): on `pXY` with domains `st10`, the word
`"aa"` in `xAB`'s domain has no overlap-compatible partner in `yAB`'s
domain other than `"aa"` itself, yet `revise` leaves it in place: removing
`"ba"` slid `"aa"` under the iteration cursor and it was never examined. -/
theorem revise_same_word_skip :
    (revise pXY st10 xAB yAB).map (fun r => (r.1, r.2 xAB)) =
      .ok (true, [['a', 'a']]) ∧
    (st10 yAB).all
      (fun wy => !(charsMatchB ['a', 'a'] 0 wy 0) || wy == ['a', 'a']) = true ∧
    pXY.overlaps xAB yAB = some (0, 0) :=
  ⟨rfl, by decide, by decide⟩

/-- Claim C10 (amended): the head of `x`'s domain is always examined; for
distinct equal-length variables with a defined in-range overlap, when
`revise` returns without error the head word (assuming it does not recur
later in the domain) survives exactly when some word of `y`'s domain other
than itself matches it at the overlap — an identical y-word is never
counted as support, whatever the size of `y`'s domain.  Words that the
in-place removal slides under the cursor, and all words when the lengths
differ, escape this rule. -/
theorem revise_head_support_iff (p : Puzzle) (st : St) (x y : Var)
    (i j : Nat) (w : Word) (rest : List Word) (r : Bool) (st2 : St)
    (hlen : x.length = y.length) (hxy : x ≠ y)
    (hov : p.overlaps x y = some (i, j))
    (hdx : st x = w :: rest) (hnr : w ∉ rest)
    (h : revise p st x y = .ok (r, st2)) :
    (w ∈ st2 x ↔ codeSupportedB i j w (st y) = true) := by
  unfold revise at h
  rw [if_neg (by simp [hlen]), hov] at h
  simp only [] at h
  rw [hdx] at h
  cases hrl : reviseLoop (st y) i j [] (w :: rest) false with
  | error e => rw [hrl] at h; cases h
  | ok pr =>
    obtain ⟨fl, rev⟩ := pr
    rw [hrl] at h
    simp only [] at h
    rw [Except.ok.injEq, Prod.mk.injEq] at h
    obtain ⟨hrev, hst⟩ := h
    subst hst
    have hx2 : updateSt st x fl x = fl := by simp [updateSt]
    rw [hx2]
    rw [reviseLoop] at hrl
    cases hc : conflictWith w i j (st y) with
    | error e => rw [hc] at hrl; cases hrl
    | ok b =>
      rw [hc] at hrl
      cases b with
      | true =>
        have hns := conflictWith_true_nosupport hc
        simp only [List.not_mem_nil, if_false] at hrl
        cases rest with
        | nil =>
          rw [Except.ok.injEq, Prod.mk.injEq] at hrl
          obtain ⟨hfl, _⟩ := hrl
          subst hfl
          simp [hns]
        | cons t ts =>
          constructor
          · intro hwfl
            have := reviseLoop_subset_aux (st y) i j ts.length ts ([] ++ [t])
              true fl rev le_rfl hrl w hwfl
            simp at this
            have hnr2 : ¬w = t ∧ w ∉ ts := by simpa using hnr
            rcases this with h1 | h2
            · exact absurd h1 hnr2.1
            · exact absurd h2 hnr2.2
          · intro hsup
            rw [hns] at hsup
            cases hsup
      | false =>
        have hsup := conflictWith_false_support hc
        rw [hsup]
        simp only [iff_true]
        refine reviseLoop_keep_aux (st y) i j w rest.length rest ([] ++ [w])
          false fl rev le_rfl (by simp) ?_ hrl
        intro u hu
        intro hueq
        exact hnr (hueq ▸ hu)

/-- Claim C10 (witness): on `pXY` with domains `stOk`, the head word
`"ab"` of `xAB`'s domain survives `revise` and indeed has the distinct
supporting partner `"ac"` in `yAB`'s domain. -/
theorem revise_head_support_iff_witness :
    xAB.length = yAB.length ∧ xAB ≠ yAB ∧
    pXY.overlaps xAB yAB = some (0, 0) ∧
    stOk xAB = ['a', 'b'] :: [] ∧ (['a', 'b'] : Word) ∉ ([] : List Word) ∧
    revise pXY stOk xAB yAB = .ok (false, updateSt stOk xAB [['a', 'b']]) ∧
    ((['a', 'b'] : Word) ∈ (updateSt stOk xAB [['a', 'b']]) xAB ↔
      codeSupportedB 0 0 ['a', 'b'] (stOk yAB) = true) :=
  ⟨rfl, by decide, by decide, rfl, by decide, rfl,
    revise_head_support_iff pXY stOk xAB yAB 0 0 ['a', 'b'] [] false
      (updateSt stOk xAB [['a', 'b']]) rfl (by decide) (by decide) rfl
      (by decide) rfl⟩
